import Mathlib

/-!
Verification of the KiCad DRC engine specification and of the eeschema
screen-editing routines, over a shallow embedding of the sources.

The DRC class (src/pcbnew/drc/drc.h) only declares its test functions in the
material available here; their bodies live in pcbnew/drc/*.cpp, which is not
part of src/.  Following the spec (spec.md) and the contracts documented in
drc.h itself, those bodies are modelled below; every such definition carries a
doc comment starting with `Modelled from the spec:` naming what is missing.
The eeschema routines (src/eeschema/sch_screen.cpp) are embedded from their
actual source.

Machine integers are modelled as unbounded `Int`: the board uses 32-bit signed
internal units and every quantity handled here (coordinates, clearances and
their squares) is far below overflow for realistic boards; the spec (§4.1)
states that the predicates are exact over integer internal units, so squared
integer comparisons replace the source's floating-point norms.
-/

namespace Kicad

/-- A point in board internal units (wxPoint in the source). -/
structure Pt where
  x : Int
  y : Int
  deriving DecidableEq, Repr

/-- Squared Euclidean norm of a point seen as a vector. -/
def normSq (p : Pt) : Int := p.x ^ 2 + p.y ^ 2

/-- Componentwise difference of two points. -/
def psub (a b : Pt) : Pt := ⟨a.x - b.x, a.y - b.y⟩

/-- Modelled from the spec: the true squared Euclidean distance from a point
to the canonical reference segment running from `(0,0)` to `(len,0)` on the
X axis (spec §4.1: the reference segment is translated/rotated into a frame
with its start at the origin and its end on the positive X axis, collapsing
the 2D problem into 1D interval plus perpendicular-offset arithmetic).  The
closest point of the segment is `(clamp c.x 0 len, 0)`; the theorems below
prove this is the minimum over all points of the segment. -/
def distSqToSegment (c : Pt) (len : Int) : Int :=
  (c.x - max 0 (min c.x len)) ^ 2 + c.y ^ 2

/-- Modelled from the spec: `DRC::checkMarginToCircle` (declared drc.h
lines 325-337; its body in pcbnew/drc/drc_clearance_test_functions.cpp is not
in src/).  Checks the distance from a circle centre `aCentre` to the canonical
segment from `(0,0)` to `(aLength,0)`: per the drc.h contract, returns `true`
if distance >= `aRadius`, `false` when distance < `aRadius` (the boundary is
inclusive).  Dispatch follows spec §4.1: perpendicular offset when the centre
projects inside the 1D interval `[0, aLength]`, distance to the nearer
endpoint otherwise; comparisons are exact on squares. -/
def checkMarginToCircle (aCentre : Pt) (aRadius aLength : Int) : Bool :=
  if 0 ≤ aCentre.x ∧ aCentre.x ≤ aLength then
    decide (aRadius ^ 2 ≤ aCentre.y ^ 2)
  else if aCentre.x < 0 then
    decide (aRadius ^ 2 ≤ normSq aCentre)
  else
    decide (aRadius ^ 2 ≤ normSq ⟨aCentre.x - aLength, aCentre.y⟩)

/-- Modelled from the spec: `DRC::checkClearanceSegmToPad` (declared drc.h
lines 308-322; body not in src/) restricted to circular pads.  The pad centre
`padPos` is `m_padToTestPos`, expressed in the canonical frame of the
reference segment of length `segmLength`; the segment has width
`aSegmentWidth` and the pad radius is `padRadius`.  Per the drc.h contract it
returns `true` iff distance >= `aMinDist`: the keep-out radius around the pad
centre is `aMinDist + aSegmentWidth / 2 + padRadius` (integer division as in
the source). -/
def checkClearanceSegmToPad (padPos : Pt) (padRadius aSegmentWidth aMinDist segmLength : Int) :
    Bool :=
  checkMarginToCircle padPos (aMinDist + aSegmentWidth / 2 + padRadius) segmLength

/-- Modelled from the spec: `DRC::checkClearancePadToPad` (declared drc.h
lines 300-305; body not in src/) restricted to circular pads: per the drc.h
contract, `true` iff the clearance between the two pads is >= `distMin`,
i.e. iff the centre distance is at least the sum of the radii plus
`distMin`. -/
def checkClearancePadToPad (refPos padPos : Pt) (refRadius padRadius distMin : Int) : Bool :=
  decide ((refRadius + padRadius + distMin) ^ 2 ≤ normSq (psub padPos refPos))

theorem checkMarginToCircle_eq_decide (c : Pt) (r len : Int) (hlen : 0 ≤ len) :
    checkMarginToCircle c r len = decide (r ^ 2 ≤ distSqToSegment c len) := by
  unfold checkMarginToCircle distSqToSegment
  rcases Classical.em (0 ≤ c.x ∧ c.x ≤ len) with h | h
  · rw [if_pos h]
    have : max 0 (min c.x len) = c.x := by
      rw [min_eq_left h.2, max_eq_right h.1]
    simp [this]
  · rw [if_neg h]
    rcases Classical.em (c.x < 0) with hx | hx
    · rw [if_pos hx]
      have : max 0 (min c.x len) = 0 := by
        rw [min_eq_left (le_trans (le_of_lt hx) hlen), max_eq_left (le_of_lt hx)]
      simp [this, normSq]
    · rw [if_neg hx]
      have hxpos : 0 ≤ c.x := le_of_not_lt hx
      have hgt : len < c.x := by
        by_contra hle
        exact h ⟨hxpos, le_of_not_lt hle⟩
      have : max 0 (min c.x len) = len := by
        rw [min_eq_right (le_of_lt hgt), max_eq_right hlen]
      simp [this, normSq]

theorem distSqToSegment_le (c : Pt) (len : Int) (hlen : 0 ≤ len) :
    ∀ t : Int, 0 ≤ t → t ≤ len → distSqToSegment c len ≤ (c.x - t) ^ 2 + c.y ^ 2 := by
  intro t ht htl
  unfold distSqToSegment
  have h2 : (c.x - max 0 (min c.x len)) ^ 2 ≤ (c.x - t) ^ 2 := by
    rcases Classical.em (0 ≤ c.x ∧ c.x ≤ len) with h | h
    · have : max 0 (min c.x len) = c.x := by
        rw [min_eq_left h.2, max_eq_right h.1]
      rw [this]
      nlinarith [sq_nonneg (c.x - t)]
    · rcases Classical.em (c.x < 0) with hx | hx
      · have : max 0 (min c.x len) = 0 := by
          rw [min_eq_left (le_trans (le_of_lt hx) hlen), max_eq_left (le_of_lt hx)]
        rw [this]
        nlinarith
      · have hxpos : 0 ≤ c.x := le_of_not_lt hx
        have hgt : len < c.x := by
          by_contra hle
          exact h ⟨hxpos, le_of_not_lt hle⟩
        have : max 0 (min c.x len) = len := by
          rw [min_eq_right (le_of_lt hgt), max_eq_right hlen]
        rw [this]
        nlinarith
  linarith

theorem distSqToSegment_attained (c : Pt) (len : Int) (hlen : 0 ≤ len) :
    ∃ t : Int, 0 ≤ t ∧ t ≤ len ∧ distSqToSegment c len = (c.x - t) ^ 2 + c.y ^ 2 := by
  refine ⟨max 0 (min c.x len), le_max_left _ _, ?_, rfl⟩
  exact max_le hlen (min_le_right _ _)

/-- C1: for the clearance predicates (`checkMarginToCircle`,
`checkClearanceSegmToPad`, `checkClearancePadToPad`) the result is `false`
iff the true Euclidean distance between the two shapes is strictly below the
effective clearance, and the boundary is inclusive: exact equality of
distance and clearance yields `true`.  Distances are compared as exact
integer squares: `distSqToSegment` is proved to be the minimum of
`(c.x - t)^2 + c.y^2` over all points `(t,0)` of the segment, and the pad
predicates reduce to the corresponding keep-out radii.  Hypotheses: the
canonical segment length is nonnegative (it is a length), and for the
pad-to-pad clause the total keep-out radius is nonnegative. -/
theorem clearance_predicate_boundary_inclusive (c : Pt) (r len : Int) (hlen : 0 ≤ len) :
    (checkMarginToCircle c r len = false ↔ distSqToSegment c len < r ^ 2) ∧
    (distSqToSegment c len = r ^ 2 → checkMarginToCircle c r len = true) ∧
    (∀ t : Int, 0 ≤ t → t ≤ len → distSqToSegment c len ≤ (c.x - t) ^ 2 + c.y ^ 2) ∧
    (∃ t : Int, 0 ≤ t ∧ t ≤ len ∧ distSqToSegment c len = (c.x - t) ^ 2 + c.y ^ 2) ∧
    (∀ padRadius w minDist : Int,
      checkClearanceSegmToPad c padRadius w minDist len = false ↔
        distSqToSegment c len < (minDist + w / 2 + padRadius) ^ 2) ∧
    (∀ p1 p2 : Pt, ∀ r1 r2 d : Int,
      (checkClearancePadToPad p1 p2 r1 r2 d = false ↔
        normSq (psub p2 p1) < (r1 + r2 + d) ^ 2) ∧
      (0 ≤ r1 + r2 + d → normSq (psub p2 p1) = (r1 + r2 + d) ^ 2 →
        checkClearancePadToPad p1 p2 r1 r2 d = true)) := by
  refine ⟨?_, ?_, distSqToSegment_le c len hlen, distSqToSegment_attained c len hlen, ?_, ?_⟩
  · rw [checkMarginToCircle_eq_decide c r len hlen]
    simp [not_le]
  · intro h
    rw [checkMarginToCircle_eq_decide c r len hlen]
    simp [h]
  · intro padRadius w minDist
    unfold checkClearanceSegmToPad
    rw [checkMarginToCircle_eq_decide c _ len hlen]
    simp [not_le]
  · intro p1 p2 r1 r2 d
    constructor
    · unfold checkClearancePadToPad
      simp [not_le]
    · intro _ h
      unfold checkClearancePadToPad
      simp [h]

/-- Witness for C1 at a concrete input: centre (3,4), radius 5, segment
length 10: the centre projects inside the interval, distance is exactly 4,
so clearance 4 is satisfied (boundary inclusive) while clearance 5 is not. -/
theorem clearance_predicate_boundary_inclusive_witness :
    (0 : Int) ≤ 10 ∧
    (checkMarginToCircle ⟨3, 4⟩ 5 10 = false ↔ distSqToSegment ⟨3, 4⟩ 10 < 5 ^ 2) := by
  refine ⟨by decide, ?_⟩
  exact (clearance_predicate_boundary_inclusive ⟨3, 4⟩ 5 10 (by decide)).1

/-- The DRC error codes, embedded from the `PCB_DRC_CODE` enum in
src/pcbnew/drc/drc.h lines 43-106, in source order and with the source
constructor names. -/
inductive PCB_DRC_CODE where
  | DRCE_UNCONNECTED_ITEMS
  | DRCE_TRACK_NEAR_THROUGH_HOLE
  | DRCE_TRACK_NEAR_PAD
  | DRCE_TRACK_NEAR_VIA
  | DRCE_VIA_NEAR_VIA
  | DRCE_VIA_NEAR_TRACK
  | DRCE_TRACK_ENDS
  | DRCE_TRACK_SEGMENTS_TOO_CLOSE
  | DRCE_TRACKS_CROSSING
  | DRCE_PAD_NEAR_PAD1
  | DRCE_VIA_HOLE_BIGGER
  | DRCE_MICRO_VIA_INCORRECT_LAYER_PAIR
  | DRCE_ZONES_INTERSECT
  | DRCE_ZONES_TOO_CLOSE
  | DRCE_SUSPICIOUS_NET_FOR_ZONE_OUTLINE
  | DRCE_HOLE_NEAR_PAD
  | DRCE_HOLE_NEAR_TRACK
  | DRCE_TOO_SMALL_TRACK_WIDTH
  | DRCE_TOO_SMALL_VIA
  | DRCE_TOO_SMALL_MICROVIA
  | DRCE_TOO_SMALL_VIA_DRILL
  | DRCE_TOO_SMALL_MICROVIA_DRILL
  | DRCE_NETCLASS_TRACKWIDTH
  | DRCE_NETCLASS_CLEARANCE
  | DRCE_NETCLASS_VIASIZE
  | DRCE_NETCLASS_VIADRILLSIZE
  | DRCE_NETCLASS_uVIASIZE
  | DRCE_NETCLASS_uVIADRILLSIZE
  | DRCE_VIA_INSIDE_KEEPOUT
  | DRCE_TRACK_INSIDE_KEEPOUT
  | DRCE_PAD_INSIDE_KEEPOUT
  | DRCE_TRACK_NEAR_COPPER
  | DRCE_VIA_NEAR_COPPER
  | DRCE_PAD_NEAR_COPPER
  | DRCE_TRACK_NEAR_ZONE
  | DRCE_OVERLAPPING_FOOTPRINTS
  | DRCE_MISSING_COURTYARD_IN_FOOTPRINT
  | DRCE_MALFORMED_COURTYARD_IN_FOOTPRINT
  | DRCE_MICRO_VIA_NOT_ALLOWED
  | DRCE_BURIED_VIA_NOT_ALLOWED
  | DRCE_DISABLED_LAYER_ITEM
  | DRCE_DRILLED_HOLES_TOO_CLOSE
  | DRCE_TRACK_NEAR_EDGE
  | DRCE_INVALID_OUTLINE
  | DRCE_MISSING_FOOTPRINT
  | DRCE_DUPLICATE_FOOTPRINT
  | DRCE_EXTRA_FOOTPRINT
  | DRCE_SHORT
  | DRCE_REDUNDANT_VIA
  | DRCE_DUPLICATE_TRACK
  | DRCE_MERGE_TRACKS
  | DRCE_DANGLING_TRACK
  | DRCE_DANGLING_VIA
  | DRCE_ZERO_LENGTH_TRACK
  | DRCE_TRACK_IN_PAD
  | DRCE_UNRESOLVED_VARIABLE
  deriving DecidableEq, Repr

open PCB_DRC_CODE

/-- The explicit overlap-anomaly categories: the block of codes at drc.h
lines 94-101 (`DRCE_SHORT` .. `DRCE_TRACK_IN_PAD`), the same-net sanity
checks called out by the spec (§4.2: "track-in-pad"/overlap sanity checks,
duplicate/redundant/zero-length). -/
def isOverlapAnomalyCode : PCB_DRC_CODE → Bool
  | DRCE_SHORT => true
  | DRCE_REDUNDANT_VIA => true
  | DRCE_DUPLICATE_TRACK => true
  | DRCE_MERGE_TRACKS => true
  | DRCE_DANGLING_TRACK => true
  | DRCE_DANGLING_VIA => true
  | DRCE_ZERO_LENGTH_TRACK => true
  | DRCE_TRACK_IN_PAD => true
  | _ => false

/-- Board-wide absolute minimums, from `BOARD_DESIGN_SETTINGS` as used by
drc.h lines 62-72 (`m_TrackClearance`, `m_TrackMinWidth`, `m_ViasMinSize`,
`m_ViasMinDrill`, `m_MicroViasMinSize`, `m_MicroViasMinDrill`). -/
structure BOARD_DESIGN_SETTINGS where
  trackClearance : Int
  trackMinWidth : Int
  viasMinSize : Int
  viasMinDrill : Int
  microViasMinSize : Int
  microViasMinDrill : Int
  deriving DecidableEq, Repr

/-- A netclass: named bundle of minimum track width, via size/drill, micro
via size/drill and clearance (spec §3, drc.h lines 62-72).  Names are
modelled as natural-number identifiers. -/
structure NETCLASS where
  name : Nat
  clearance : Int
  trackWidth : Int
  viaSize : Int
  viaDrill : Int
  uViaSize : Int
  uViaDrill : Int
  deriving DecidableEq, Repr

/-- A circular pad: position, radius, owning net (nullable), the raw
clearance of its netclass, and its layer set (spec §3: each board item
carries layer set, owning net, geometric shape). -/
structure D_PAD where
  pos : Pt
  radius : Int
  netcode : Option Nat
  netclassClearance : Int
  layers : List Nat
  deriving DecidableEq, Repr

/-- A track segment: endpoints, width, owning net (nullable), the raw
clearance of its netclass, and its layer. -/
structure TRACK where
  startP : Pt
  endP : Pt
  width : Int
  netcode : Option Nat
  netclassClearance : Int
  layer : Nat
  deriving DecidableEq, Repr

/-- Reference to an implicated board item carried by a violation record
(spec §3: one or two implicated item references; netclass configuration
violations name the netclass). -/
inductive BoardRef where
  | pad (p : D_PAD)
  | track (t : TRACK)
  | netclass (n : Nat)
  | noRef
  deriving DecidableEq, Repr

/-- The owning net of a referenced item, when it has one. -/
def BoardRef.netOf : BoardRef → Option Nat
  | .pad p => p.netcode
  | .track t => t.netcode
  | .netclass _ => none
  | .noRef => none

/-- Two referenced items belong to the same net when both carry the same
non-null net (spec §3: nets are nullable; a null net is no net). -/
def sameNet (a b : BoardRef) : Bool :=
  match a.netOf, b.netOf with
  | some m, some n => decide (m = n)
  | _, _ => false

/-- A violation record: category code and up to two implicated items
(spec §3: produced, never mutated after creation). -/
structure DRC_ITEM where
  code : PCB_DRC_CODE
  a : BoardRef
  b : BoardRef
  deriving DecidableEq, Repr

/-- Modelled from the spec: `DRC::doNetClass` (declared drc.h line 264; body
in pcbnew/drc/drc.cpp not in src/).  Checks one netclass's clearance, track
width, via sizes and drills against the board design settings minimums
(drc.h lines 213-218 and 62-72) and reports one violation per parameter that
is below its minimum, each naming the netclass. -/
def doNetClass (g : BOARD_DESIGN_SETTINGS) (nc : NETCLASS) : List DRC_ITEM :=
  (if nc.clearance < g.trackClearance then
    [⟨DRCE_NETCLASS_CLEARANCE, .netclass nc.name, .noRef⟩] else []) ++
  (if nc.trackWidth < g.trackMinWidth then
    [⟨DRCE_NETCLASS_TRACKWIDTH, .netclass nc.name, .noRef⟩] else []) ++
  (if nc.viaSize < g.viasMinSize then
    [⟨DRCE_NETCLASS_VIASIZE, .netclass nc.name, .noRef⟩] else []) ++
  (if nc.viaDrill < g.viasMinDrill then
    [⟨DRCE_NETCLASS_VIADRILLSIZE, .netclass nc.name, .noRef⟩] else []) ++
  (if nc.uViaSize < g.microViasMinSize then
    [⟨DRCE_NETCLASS_uVIASIZE, .netclass nc.name, .noRef⟩] else []) ++
  (if nc.uViaDrill < g.microViasMinDrill then
    [⟨DRCE_NETCLASS_uVIADRILLSIZE, .netclass nc.name, .noRef⟩] else [])

/-- Modelled from the spec: `DRC::testNetClasses` (declared drc.h
lines 213-222; body not in src/).  Goes through each netclass and verifies
its limits against the board design settings, reporting _all_ netclass
violations (drc.h: "true if success, else false but only after reporting
_all_ NETCLASS violations"). -/
def testNetClasses (g : BOARD_DESIGN_SETTINGS) (ncs : List NETCLASS) : List DRC_ITEM :=
  match ncs with
  | [] => []
  | nc :: rest => doNetClass g nc ++ testNetClasses g rest

/-- Modelled from the spec: the effective clearance of a netclass (spec
§4.2: "absolute board minimum is the floor; a per-net netclass value
overrides the default only if it does not violate the floor — if it does
... the floor is substituted for the purposes of continuing geometric
checks"). -/
def effectiveClearance (g : BOARD_DESIGN_SETTINGS) (nc : NETCLASS) : Int :=
  max g.trackClearance nc.clearance

/-- Modelled from the spec: the effective clearance of an individual pad,
its netclass clearance floored at the board minimum (spec §4.2). -/
def padEffClearance (g : BOARD_DESIGN_SETTINGS) (p : D_PAD) : Int :=
  max g.trackClearance p.netclassClearance

/-- Modelled from the spec: the effective clearance of an item pair is the
maximum of the two items' clearances (spec §4.2: "When two items belong to
different nets, clearance is the maximum of the two"). -/
def pairClearance (g : BOARD_DESIGN_SETTINGS) (a b : D_PAD) : Int :=
  max (padEffClearance g a) (padEffClearance g b)

/-- Whether two pads share at least one layer. -/
def sharesLayer (a b : D_PAD) : Bool :=
  a.layers.any (fun l => b.layers.contains l)

/-- The smallest X coordinate of a pad's bounding box. -/
def padMinX (p : D_PAD) : Int := p.pos.x - p.radius

/-- The largest X coordinate of a pad's bounding box. -/
def padMaxX (p : D_PAD) : Int := p.pos.x + p.radius

/-- Whether a candidate pad conflicts with the reference pad: they share a
layer, belong to different nets (spec §4.3: "skips same-net pads"), and the
clearance predicate fails for the pair's effective clearance. -/
def padConflicts (g : BOARD_DESIGN_SETTINGS) (ref p : D_PAD) : Bool :=
  sharesLayer ref p && !sameNet (.pad ref) (.pad p) &&
    !checkClearancePadToPad ref.pos p.pos ref.radius p.radius (pairClearance g ref p)

/-- Modelled from the spec: `DRC::doPadToPadsDrc` (declared drc.h
lines 266-278; body in pcbnew/drc/drc.cpp not in src/).  Tests the clearance
between `aRefPad` and the pads of the X-sorted candidate list, stopping the
scan as soon as a candidate's minimum X exceeds `x_limit` (drc.h: "when the
current pad pos X in list exceeds this limit, because the list is sorted by
X coordinate"; spec §4.3: "once a candidate's minimum X exceeds the
reference item's maximum X plus the worst-case clearance ... the inner scan
stops"). -/
def doPadToPadsDrc (g : BOARD_DESIGN_SETTINGS) (aRefPad : D_PAD) (cands : List D_PAD)
    (x_limit : Int) : List DRC_ITEM :=
  match cands with
  | [] => []
  | p :: rest =>
    if x_limit < padMinX p then []
    else
      (if padConflicts g aRefPad p then
        [⟨DRCE_PAD_NEAR_PAD1, .pad aRefPad, .pad p⟩] else []) ++
      doPadToPadsDrc g aRefPad rest x_limit

/-- The naive all-pairs reference test: every candidate is checked, with no
early exit (the specification baseline that the sorted sweep refines). -/
def padToPadsNaive (g : BOARD_DESIGN_SETTINGS) (aRefPad : D_PAD) (cands : List D_PAD) :
    List DRC_ITEM :=
  match cands with
  | [] => []
  | p :: rest =>
    (if padConflicts g aRefPad p then
      [⟨DRCE_PAD_NEAR_PAD1, .pad aRefPad, .pad p⟩] else []) ++
    padToPadsNaive g aRefPad rest

/-- The worst-case clearance over a pad collection (spec §4.3: the sweep
limit adds the worst-case clearance to the reference pad's maximum X). -/
def worstClearance (g : BOARD_DESIGN_SETTINGS) (pads : List D_PAD) : Int :=
  match pads with
  | [] => 0
  | p :: rest => max (padEffClearance g p) (worstClearance g rest)

/-- Whether a pad list is sorted by ascending minimum X (the sort key of the
sweep, spec §4.3: "pre-sorted by a spatial key (typically ascending X of
bounding-box)"). -/
def sortedByMinX : List D_PAD → Bool
  | [] => true
  | [_] => true
  | a :: b :: rest => decide (padMinX a ≤ padMinX b) && sortedByMinX (b :: rest)

/-- Modelled from the spec: `DRC::testPad2Pad` (declared drc.h line 234; body
not in src/).  Sweeps each reference pad against the candidates after it in
the X-sorted list, with `x_limit` the reference pad's maximum X plus the
worst-case clearance of the whole collection. -/
def testPad2Pad (g : BOARD_DESIGN_SETTINGS) (worst : Int) : List D_PAD → List DRC_ITEM
  | [] => []
  | ref :: rest =>
    doPadToPadsDrc g ref rest (padMaxX ref + worst) ++ testPad2Pad g worst rest

/-- Whether two tracks have the same endpoints (in either orientation) and
the same layer: the duplicate-track anomaly. -/
def duplicateTrack (a b : TRACK) : Bool :=
  decide (a.layer = b.layer) &&
    (decide (a.startP = b.startP ∧ a.endP = b.endP) ||
     decide (a.startP = b.endP ∧ a.endP = b.startP))

/-- Modelled from the spec: the candidate scan of `DRC::doTrackDrc` (declared
drc.h lines 280-291; body in pcbnew/drc/drc_clearance_test_functions.cpp not
in src/).  Per spec §4.3, the driver sweeps candidates on shared layers and
skips same-net pairs unless testing for duplicate/overlapping/zero-length
anomalies; the geometric proximity predicate is abstracted as `tooClose`
(its canonical-frame arithmetic is the subject of `checkMarginToCircle`
above). -/
def trackPairViolations (tooClose : TRACK → TRACK → Bool) (ref : TRACK) :
    List TRACK → List DRC_ITEM
  | [] => []
  | t :: rest =>
    (if sameNet (.track ref) (.track t) then
      (if duplicateTrack ref t then
        [⟨DRCE_DUPLICATE_TRACK, .track ref, .track t⟩] else [])
    else
      (if decide (ref.layer = t.layer) && tooClose ref t then
        [⟨DRCE_TRACK_SEGMENTS_TOO_CLOSE, .track ref, .track t⟩] else [])) ++
    trackPairViolations tooClose ref rest

/-- Modelled from the spec: one reference track's checks — the zero-length
degenerate anomaly (spec §4.1 edge cases: "zero-length segments ... flagged
separately as a distinct violation category") followed by the candidate
scan. -/
def doTrackDrc (tooClose : TRACK → TRACK → Bool) (ref : TRACK) (cands : List TRACK) :
    List DRC_ITEM :=
  (if decide (ref.startP = ref.endP) then
    [⟨DRCE_ZERO_LENGTH_TRACK, .track ref, .noRef⟩] else []) ++
  trackPairViolations tooClose ref cands

/-- Modelled from the spec: the full track pass, each reference track tested
against the tracks after it, with no report limit. -/
def testTracksAll (tooClose : TRACK → TRACK → Bool) : List TRACK → List DRC_ITEM
  | [] => []
  | ref :: rest => doTrackDrc tooClose ref rest ++ testTracksAll tooClose rest

/-- Modelled from the spec: `DRC::testTracks` (declared drc.h lines 224-232;
body not in src/) under the `m_reportAllTrackErrors` flag (drc.h line 154:
"Report all tracks errors (or only 4 first errors)"): when the flag is
cleared only the first 4 track errors are reported. -/
def testTracks (tooClose : TRACK → TRACK → Bool) (reportAllTrackErrors : Bool)
    (tracks : List TRACK) : List DRC_ITEM :=
  if reportAllTrackErrors then testTracksAll tooClose tracks
  else (testTracksAll tooClose tracks).take 4

/-- The DRC configuration flags, one field per boolean member of the `DRC`
class, drc.h lines 149-155. -/
structure DRC_CONFIG where
  doPad2PadTest : Bool
  doUnconnectedTest : Bool
  doZonesTest : Bool
  doKeepoutTest : Bool
  refillZones : Bool
  reportAllTrackErrors : Bool
  testFootprints : Bool
  deriving DecidableEq, Repr

/-- The check categories of the engine (spec §4.3 and the categorical test
member functions of drc.h lines 211-296). -/
inductive DRC_CATEGORY where
  | netclasses
  | tracks
  | pad2pad
  | drilledHoles
  | unconnected
  | zones
  | keepouts
  | copperGraphics
  | disabledLayers
  | textVars
  | outline
  | courtyards
  | footprints
  deriving DecidableEq, Repr

/-- Which categories have a caller-settable verbosity flag limiting how many
violations are reported: of the seven configuration booleans of drc.h
lines 149-155, only `m_reportAllTrackErrors` (line 154) is such a flag, and
it covers the track category; the other booleans enable or disable whole
categories and limit nothing. -/
def categoryHasLimitFlag : DRC_CATEGORY → Bool
  | .tracks => true
  | _ => false

/-- The board model read by the engine: items, netclasses, design settings,
plus the marker list the checking writes to (drc.h lines 127-135: "The
output of the checking goes to the BOARD file in the form of ... MARKER
lists"). -/
structure BOARD where
  pads : List D_PAD
  tracks : List TRACK
  netclasses : List NETCLASS
  settings : BOARD_DESIGN_SETTINGS
  markers : List DRC_ITEM
  deriving DecidableEq, Repr

/-- The per-run state of the DRC tool (drc.h lines 185-188: the unconnected
worklist and the `m_drcRun` flag; spec §3: "Check Pass State: ephemeral
per-run ... Created at pass start"). -/
structure DRC_STATE where
  unconnected : List DRC_ITEM
  drcRun : Bool
  deriving DecidableEq, Repr

/-- Modelled from the spec: `DRC::RunTests` (declared drc.h lines 401-406;
body in pcbnew/drc/drc.cpp not in src/).  Sequences the enabled categories
in a fixed order with netclass validation first (spec §4.5: "netclass
validation first, since later geometric tests depend on resolved effective
values"; each category's enable flag is caller-configured and immutable
during the run), replaces the board's marker list with the fresh violation
list, and leaves the geometry untouched.  The track-to-track proximity
predicate is abstracted as `tooClose`. -/
def RunTests (tooClose : TRACK → TRACK → Bool) (cfg : DRC_CONFIG) (st : DRC_STATE)
    (b : BOARD) : List DRC_ITEM × BOARD × DRC_STATE :=
  let viols :=
    testNetClasses b.settings b.netclasses ++
    testTracks tooClose cfg.reportAllTrackErrors b.tracks ++
    (if cfg.doPad2PadTest then
      testPad2Pad b.settings (worstClearance b.settings b.pads) b.pads else [])
  (viols, { b with markers := viols }, { unconnected := [], drcRun := true })

/-- The reference items of a pass, each paired with the candidate list the
driver scans for it (the tail after it in the sorted list). -/
def refsWithTails : List D_PAD → List (D_PAD × List D_PAD)
  | [] => []
  | p :: rest => (p, rest) :: refsWithTails rest

/-- The pad-to-pad pass restricted to an explicit list of reference items
(used to state what an uncancelled run restricted to a prefix of the
reference items produces). -/
def testPad2PadOnRefs (g : BOARD_DESIGN_SETTINGS) (worst : Int) :
    List (D_PAD × List D_PAD) → List DRC_ITEM
  | [] => []
  | (ref, tail) :: rest =>
    doPadToPadsDrc g ref tail (padMaxX ref + worst) ++ testPad2PadOnRefs g worst rest

/-- Modelled from the spec: the pad-to-pad pass under cooperative
cancellation (spec §4.3 failure semantics: "each driver checks a
cancellation flag between reference items and returns the partial violation
list accumulated so far").  `k` is the number of reference items processed
before the cancellation flag is seen set. -/
def testPad2PadUpTo (g : BOARD_DESIGN_SETTINGS) (worst : Int) :
    Nat → List D_PAD → List DRC_ITEM
  | _, [] => []
  | 0, _ :: _ => []
  | Nat.succ k, ref :: rest =>
    doPadToPadsDrc g ref rest (padMaxX ref + worst) ++ testPad2PadUpTo g worst k rest

/-- The predicate recognising a `DRCE_NETCLASS_CLEARANCE` violation that
names the netclass `n`. -/
def ncClearPred (n : Nat) : DRC_ITEM → Bool
  | ⟨DRCE_NETCLASS_CLEARANCE, .netclass m, _⟩ => decide (m = n)
  | _ => false

theorem countP_doNetClass_of_lt (g : BOARD_DESIGN_SETTINGS) (m : NETCLASS) (n : Nat)
    (h : m.clearance < g.trackClearance) :
    List.countP (ncClearPred n) (doNetClass g m) = if m.name = n then 1 else 0 := by
  unfold doNetClass
  split_ifs <;>
    simp_all [List.countP_append, List.countP_cons, List.countP_nil, ncClearPred]

theorem countP_doNetClass_name_ne (g : BOARD_DESIGN_SETTINGS) (m : NETCLASS) (n : Nat)
    (h : m.name ≠ n) :
    List.countP (ncClearPred n) (doNetClass g m) = 0 := by
  unfold doNetClass
  split_ifs <;>
    simp_all [List.countP_append, List.countP_cons, List.countP_nil, ncClearPred]

theorem countP_testNetClasses_zero (g : BOARD_DESIGN_SETTINGS) (ncs : List NETCLASS) (n : Nat)
    (h : ∀ m ∈ ncs, m.name ≠ n) :
    List.countP (ncClearPred n) (testNetClasses g ncs) = 0 := by
  induction ncs with
  | nil => rfl
  | cons m rest ih =>
    unfold testNetClasses
    rw [List.countP_append, countP_doNetClass_name_ne g m n (h m (List.mem_cons_self m rest)),
      ih (fun q hq => h q (List.mem_cons_of_mem m hq))]

/-- C2: a netclass whose clearance is set below the board-wide absolute
minimum yields exactly one `DRCE_NETCLASS_CLEARANCE` violation naming that
netclass in the output of `testNetClasses` (which reports all netclass
violations, wherever in the list the netclass sits), the violation pass is a
prefix of the full `RunTests` report (netclass validation runs before any
geometric test), and the effective clearance substituted for the geometric
checks is the board minimum, as if the netclass value had not been set.
Hypotheses: the netclass is on the board, its clearance is below the floor,
and netclass names are unique. -/
theorem netclass_below_minimum_reported_once (g : BOARD_DESIGN_SETTINGS)
    (ncs : List NETCLASS) (nc : NETCLASS) (hmem : nc ∈ ncs)
    (hlt : nc.clearance < g.trackClearance)
    (hnodup : (ncs.map NETCLASS.name).Nodup) :
    List.countP (ncClearPred nc.name) (testNetClasses g ncs) = 1 ∧
    effectiveClearance g nc = g.trackClearance ∧
    (∀ p : D_PAD, p.netclassClearance = nc.clearance →
      padEffClearance g p = g.trackClearance) ∧
    (∀ tooClose cfg st b, BOARD.settings b = g → BOARD.netclasses b = ncs →
      ∃ rest, (RunTests tooClose cfg st b).1 = testNetClasses g ncs ++ rest) := by
  refine ⟨?_, ?_, ?_, ?_⟩
  · induction ncs with
    | nil => cases hmem
    | cons m rest ih =>
      rcases List.mem_cons.mp hmem with heq | hmem2
      · subst heq
        unfold testNetClasses
        rw [List.countP_append, countP_doNetClass_of_lt g nc nc.name hlt, if_pos rfl,
          countP_testNetClasses_zero g rest nc.name]
        intro q hq
        have hnotin : nc.name ∉ rest.map NETCLASS.name := (List.nodup_cons.mp hnodup).1
        intro hqname
        exact hnotin (hqname ▸ List.mem_map_of_mem NETCLASS.name hq)
      · have hpair := List.nodup_cons.mp hnodup
        have hne : m.name ≠ nc.name := by
          intro heq
          exact hpair.1 (heq ▸ List.mem_map_of_mem NETCLASS.name hmem2)
        unfold testNetClasses
        rw [List.countP_append, countP_doNetClass_name_ne g m nc.name hne,
          ih hmem2 hpair.2]
  · exact max_eq_left (le_of_lt hlt)
  · intro p hp
    unfold padEffClearance
    rw [hp]
    exact max_eq_left (le_of_lt hlt)
  · intro tooClose cfg st b hs hn
    refine ⟨testTracks tooClose cfg.reportAllTrackErrors b.tracks ++
      (if cfg.doPad2PadTest then
        testPad2Pad b.settings (worstClearance b.settings b.pads) b.pads else []), ?_⟩
    simp [RunTests, hs, hn, List.append_assoc]

/-- Witness for C2 at a concrete input: a board with two netclasses, the
second of which has clearance 3 below the board minimum 10. -/
theorem netclass_below_minimum_reported_once_witness :
    ((⟨7, 3, 5, 5, 5, 5, 5⟩ : NETCLASS) ∈
        [(⟨1, 20, 5, 5, 5, 5, 5⟩ : NETCLASS), ⟨7, 3, 5, 5, 5, 5, 5⟩] ∧
      (3 : Int) < 10 ∧
      (([(⟨1, 20, 5, 5, 5, 5, 5⟩ : NETCLASS), ⟨7, 3, 5, 5, 5, 5, 5⟩].map
        NETCLASS.name).Nodup)) ∧
    List.countP (ncClearPred 7)
      (testNetClasses ⟨10, 1, 1, 1, 1, 1⟩
        [⟨1, 20, 5, 5, 5, 5, 5⟩, ⟨7, 3, 5, 5, 5, 5, 5⟩]) = 1 := by
  refine ⟨⟨by decide, by decide, by decide⟩, ?_⟩
  exact (netclass_below_minimum_reported_once ⟨10, 1, 1, 1, 1, 1⟩
    [⟨1, 20, 5, 5, 5, 5, 5⟩, ⟨7, 3, 5, 5, 5, 5, 5⟩] ⟨7, 3, 5, 5, 5, 5, 5⟩
    (by decide) (by decide) (by decide)).1

/-- C3: the engine is a deterministic function of the board and the
configuration: running the full pass a second time, starting from the DRC
state and the board (with its refreshed marker list) left by the first run,
produces the identical ordered violation list — the drivers run in a fixed
sequence and read only the geometry, nets and rules, never the leftover
per-run state. -/
theorem RunTests_deterministic (tooClose : TRACK → TRACK → Bool) (cfg : DRC_CONFIG)
    (st : DRC_STATE) (b : BOARD) :
    (RunTests tooClose cfg (RunTests tooClose cfg st b).2.2
        (RunTests tooClose cfg st b).2.1).1 =
      (RunTests tooClose cfg st b).1 := by
  rfl

/-- C5: the DRC pass does not mutate the board model: pads, tracks,
netclasses and design settings (geometry, nets and rules) are identical
before and after `RunTests`; only the marker list attached to the board is
replaced with the new report. -/
theorem RunTests_preserves_board_geometry (tooClose : TRACK → TRACK → Bool)
    (cfg : DRC_CONFIG) (st : DRC_STATE) (b : BOARD) :
    (RunTests tooClose cfg st b).2.1.pads = b.pads ∧
    (RunTests tooClose cfg st b).2.1.tracks = b.tracks ∧
    (RunTests tooClose cfg st b).2.1.netclasses = b.netclasses ∧
    (RunTests tooClose cfg st b).2.1.settings = b.settings ∧
    (RunTests tooClose cfg st b).2.1.markers = (RunTests tooClose cfg st b).1 :=
  ⟨rfl, rfl, rfl, rfl, rfl⟩

theorem mem_doNetClass_refs (g : BOARD_DESIGN_SETTINGS) (m : NETCLASS) (v : DRC_ITEM)
    (hv : v ∈ doNetClass g m) : v.a = .netclass m.name ∧ v.b = .noRef := by
  unfold doNetClass at hv
  split_ifs at hv <;>
    simp only [List.mem_append, List.mem_singleton, List.not_mem_nil, or_false,
      false_or, or_assoc] at hv <;>
    repeat' (first | (rcases hv with rfl | hv) | (rcases hv with rfl))
  all_goals exact ⟨rfl, rfl⟩

theorem mem_testNetClasses_sameNet (g : BOARD_DESIGN_SETTINGS) (ncs : List NETCLASS)
    (v : DRC_ITEM) (hv : v ∈ testNetClasses g ncs) : sameNet v.a v.b = false := by
  induction ncs with
  | nil => cases hv
  | cons m rest ih =>
    unfold testNetClasses at hv
    rcases List.mem_append.mp hv with h | h
    · have := mem_doNetClass_refs g m v h
      rw [this.1, this.2]
      rfl
    · exact ih h

theorem mem_trackPairViolations_sameNet (tooClose : TRACK → TRACK → Bool) (ref : TRACK)
    (l : List TRACK) (v : DRC_ITEM) (hv : v ∈ trackPairViolations tooClose ref l)
    (hcode : isOverlapAnomalyCode v.code = false) : sameNet v.a v.b = false := by
  induction l with
  | nil => cases hv
  | cons t rest ih =>
    unfold trackPairViolations at hv
    rcases List.mem_append.mp hv with h | h
    · by_cases hsn : sameNet (.track ref) (.track t) = true
      · rw [if_pos hsn] at h
        split_ifs at h with hdup
        · rcases List.mem_singleton.mp h with rfl
          simp [isOverlapAnomalyCode] at hcode
        · cases h
      · rw [if_neg hsn] at h
        split_ifs at h with hcl
        · rcases List.mem_singleton.mp h with rfl
          exact Bool.not_eq_true _ ▸ (Bool.eq_false_iff.mpr hsn)
        · cases h
    · exact ih h

theorem mem_testTracksAll_sameNet (tooClose : TRACK → TRACK → Bool) (ts : List TRACK)
    (v : DRC_ITEM) (hv : v ∈ testTracksAll tooClose ts)
    (hcode : isOverlapAnomalyCode v.code = false) : sameNet v.a v.b = false := by
  induction ts with
  | nil => cases hv
  | cons ref rest ih =>
    unfold testTracksAll doTrackDrc at hv
    rcases List.mem_append.mp hv with h | h
    · rcases List.mem_append.mp h with h2 | h2
      · split_ifs at h2
        · rcases List.mem_singleton.mp h2 with rfl
          simp [isOverlapAnomalyCode] at hcode
        · cases h2
      · exact mem_trackPairViolations_sameNet tooClose ref rest v h2 hcode
    · exact ih h

theorem mem_doPadToPadsDrc_sameNet (g : BOARD_DESIGN_SETTINGS) (ref : D_PAD)
    (cands : List D_PAD) (lim : Int) (v : DRC_ITEM)
    (hv : v ∈ doPadToPadsDrc g ref cands lim) : sameNet v.a v.b = false := by
  induction cands with
  | nil => cases hv
  | cons p rest ih =>
    unfold doPadToPadsDrc at hv
    split_ifs at hv with hlim hc
    · cases hv
    · rcases List.mem_append.mp hv with h | h
      · rcases List.mem_singleton.mp h with rfl
        have hcc := hc
        unfold padConflicts at hcc
        simp only [Bool.and_eq_true, Bool.not_eq_true'] at hcc
        exact hcc.1.2
      · exact ih h
    · rcases List.mem_append.mp hv with h | h
      · cases h
      · exact ih h

theorem mem_testPad2Pad_sameNet (g : BOARD_DESIGN_SETTINGS) (worst : Int)
    (pads : List D_PAD) (v : DRC_ITEM) (hv : v ∈ testPad2Pad g worst pads) :
    sameNet v.a v.b = false := by
  induction pads with
  | nil => cases hv
  | cons ref rest ih =>
    unfold testPad2Pad at hv
    rcases List.mem_append.mp hv with h | h
    · exact mem_doPadToPadsDrc_sameNet g ref rest _ v h
    · exact ih h

/-- C4: no clearance violation is ever reported for a pair of items on the
same net: every violation in the full `RunTests` report whose category is
not one of the explicit overlap-anomaly codes (drc.h lines 94-101:
track-in-pad, duplicate/redundant/zero-length checks) implicates items that
do not share a non-null net. -/
theorem same_net_pair_never_clearance_violation (tooClose : TRACK → TRACK → Bool)
    (cfg : DRC_CONFIG) (st : DRC_STATE) (b : BOARD) (v : DRC_ITEM)
    (hv : v ∈ (RunTests tooClose cfg st b).1)
    (hcode : isOverlapAnomalyCode v.code = false) :
    sameNet v.a v.b = false := by
  unfold RunTests at hv
  simp only at hv
  rcases List.mem_append.mp hv with h | h
  · rcases List.mem_append.mp h with h2 | h2
    · exact mem_testNetClasses_sameNet b.settings b.netclasses v h2
    · unfold testTracks at h2
      split_ifs at h2 with hflag
      · exact mem_testTracksAll_sameNet tooClose b.tracks v h2 hcode
      · exact mem_testTracksAll_sameNet tooClose b.tracks v
          (List.take_subset 4 _ h2) hcode
  · split_ifs at h with hp2p
    · exact mem_testPad2Pad_sameNet b.settings _ b.pads v h
    · cases h

/-- Witness for C4 at a concrete input: two overlapping pads on different
nets produce a `DRCE_PAD_NEAR_PAD1` violation, whose implicated items indeed
lie on different nets. -/
theorem same_net_pair_never_clearance_violation_witness :
    ((⟨DRCE_PAD_NEAR_PAD1,
        .pad ⟨⟨0, 0⟩, 5, some 1, 2, [0]⟩, .pad ⟨⟨4, 0⟩, 5, some 2, 2, [0]⟩⟩ : DRC_ITEM) ∈
      (RunTests (fun _ _ => false) ⟨true, false, false, false, false, true, false⟩
        ⟨[], false⟩
        ⟨[⟨⟨0, 0⟩, 5, some 1, 2, [0]⟩, ⟨⟨4, 0⟩, 5, some 2, 2, [0]⟩], [], [],
          ⟨2, 1, 1, 1, 1, 1⟩, []⟩).1 ∧
      isOverlapAnomalyCode DRCE_PAD_NEAR_PAD1 = false) ∧
    sameNet (.pad ⟨⟨0, 0⟩, 5, some 1, 2, [0]⟩) (.pad ⟨⟨4, 0⟩, 5, some 2, 2, [0]⟩) = false := by
  refine ⟨⟨by decide, by decide⟩, ?_⟩
  exact same_net_pair_never_clearance_violation (fun _ _ => false)
    ⟨true, false, false, false, false, true, false⟩ ⟨[], false⟩
    ⟨[⟨⟨0, 0⟩, 5, some 1, 2, [0]⟩, ⟨⟨4, 0⟩, 5, some 2, 2, [0]⟩], [], [],
      ⟨2, 1, 1, 1, 1, 1⟩, []⟩
    ⟨DRCE_PAD_NEAR_PAD1, .pad ⟨⟨0, 0⟩, 5, some 1, 2, [0]⟩, .pad ⟨⟨4, 0⟩, 5, some 2, 2, [0]⟩⟩
    (by decide) (by decide)

theorem sortedByMinX_tail {a : D_PAD} {l : List D_PAD}
    (h : sortedByMinX (a :: l) = true) : sortedByMinX l = true := by
  cases l with
  | nil => rfl
  | cons b rest =>
    unfold sortedByMinX at h
    exact (Bool.and_eq_true _ _ ▸ h).2

theorem sortedByMinX_head_le {a : D_PAD} {l : List D_PAD}
    (h : sortedByMinX (a :: l) = true) : ∀ b ∈ l, padMinX a ≤ padMinX b := by
  induction l generalizing a with
  | nil => intro b hb; cases hb
  | cons c rest ih =>
    intro b hb
    unfold sortedByMinX at h
    have hac : padMinX a ≤ padMinX c := by
      have := (Bool.and_eq_true _ _ ▸ h).1
      exact of_decide_eq_true this
    have hrest : sortedByMinX (c :: rest) = true := (Bool.and_eq_true _ _ ▸ h).2
    rcases List.mem_cons.mp hb with rfl | hb2
    · exact hac
    · exact le_trans hac (ih hrest b hb2)

/-- Beyond the sweep limit no pair can violate: a candidate whose minimum X
exceeds the reference pad's maximum X plus the pair clearance is clear of
the reference pad (spec §4.3). -/
theorem padConflicts_far (g : BOARD_DESIGN_SETTINGS) (ref p : D_PAD)
    (h0r : 0 ≤ ref.radius) (h0p : 0 ≤ p.radius) (h0c : 0 ≤ pairClearance g ref p)
    (hfar : padMaxX ref + pairClearance g ref p < padMinX p) :
    padConflicts g ref p = false := by
  have hcheck : checkClearancePadToPad ref.pos p.pos ref.radius p.radius
      (pairClearance g ref p) = true := by
    unfold checkClearancePadToPad
    apply decide_eq_true
    unfold padMaxX padMinX at hfar
    unfold normSq psub
    dsimp only
    nlinarith [sq_nonneg (p.pos.y - ref.pos.y),
      mul_pos
        (show (0 : Int) < p.pos.x - ref.pos.x -
          (ref.radius + p.radius + pairClearance g ref p) from by linarith)
        (show (0 : Int) < p.pos.x - ref.pos.x +
          (ref.radius + p.radius + pairClearance g ref p) from by linarith)]
  unfold padConflicts
  rw [hcheck]
  simp

theorem padToPadsNaive_nil_of_clear (g : BOARD_DESIGN_SETTINGS) (ref : D_PAD)
    (l : List D_PAD) (h : ∀ p ∈ l, padConflicts g ref p = false) :
    padToPadsNaive g ref l = [] := by
  induction l with
  | nil => rfl
  | cons p rest ih =>
    unfold padToPadsNaive
    rw [h p (List.mem_cons_self p rest), ih (fun q hq => h q (List.mem_cons_of_mem p hq))]
    rfl

/-- C6: the sorted sweep with early exit reports exactly the same violations
as the naive all-pairs test: on a candidate list sorted by ascending minimum
X, with the scan limit set to the reference pad's maximum X plus a bound
`worst` on every pair's effective clearance, `doPadToPadsDrc` equals the
naive scan with no early exit — no violating pair is skipped.  Hypotheses:
the list is sorted, radii are nonnegative, and each pair's effective
clearance is nonnegative and bounded by `worst`. -/
theorem doPadToPadsDrc_eq_naive (g : BOARD_DESIGN_SETTINGS) (ref : D_PAD)
    (cands : List D_PAD) (worst : Int) (hsorted : sortedByMinX cands = true)
    (h0r : 0 ≤ ref.radius)
    (hc : ∀ p ∈ cands, 0 ≤ p.radius ∧ 0 ≤ pairClearance g ref p ∧
      pairClearance g ref p ≤ worst) :
    doPadToPadsDrc g ref cands (padMaxX ref + worst) = padToPadsNaive g ref cands := by
  induction cands with
  | nil => rfl
  | cons p rest ih =>
    by_cases hlim : padMaxX ref + worst < padMinX p
    · have h1 : doPadToPadsDrc g ref (p :: rest) (padMaxX ref + worst) = [] := by
        unfold doPadToPadsDrc
        rw [if_pos hlim]
      have hclear : ∀ q ∈ p :: rest, padConflicts g ref q = false := by
        intro q hq
        have hq3 := hc q hq
        have hqfar : padMaxX ref + pairClearance g ref q < padMinX q := by
          have hle : padMinX p ≤ padMinX q := by
            rcases List.mem_cons.mp hq with rfl | hq2
            · exact le_refl _
            · exact sortedByMinX_head_le hsorted q hq2
          have := hq3.2.2
          omega
        exact padConflicts_far g ref q h0r hq3.1 hq3.2.1 hqfar
      rw [h1, padToPadsNaive_nil_of_clear g ref (p :: rest) hclear]
    · have h1 : doPadToPadsDrc g ref (p :: rest) (padMaxX ref + worst) =
          (if padConflicts g ref p then
            [⟨DRCE_PAD_NEAR_PAD1, .pad ref, .pad p⟩] else []) ++
          doPadToPadsDrc g ref rest (padMaxX ref + worst) := by
        simp only [doPadToPadsDrc]
        rw [if_neg hlim]
      have h2 : padToPadsNaive g ref (p :: rest) =
          (if padConflicts g ref p then
            [⟨DRCE_PAD_NEAR_PAD1, .pad ref, .pad p⟩] else []) ++
          padToPadsNaive g ref rest := rfl
      rw [h1, h2, ih (sortedByMinX_tail hsorted)
        (fun q hq => hc q (List.mem_cons_of_mem p hq))]

/-- Witness for C6 at a concrete input: three sorted pads, the last far
enough to be cut off by the early exit, and the sweep still equals the
naive scan. -/
theorem doPadToPadsDrc_eq_naive_witness :
    (sortedByMinX [⟨⟨4, 0⟩, 1, some 2, 2, [0]⟩, ⟨⟨100, 0⟩, 1, some 3, 2, [0]⟩] = true ∧
      (0 : Int) ≤ 1 ∧
      (∀ p ∈ [(⟨⟨4, 0⟩, 1, some 2, 2, [0]⟩ : D_PAD), ⟨⟨100, 0⟩, 1, some 3, 2, [0]⟩],
        0 ≤ p.radius ∧
          0 ≤ pairClearance ⟨2, 1, 1, 1, 1, 1⟩ ⟨⟨0, 0⟩, 1, some 1, 2, [0]⟩ p ∧
          pairClearance ⟨2, 1, 1, 1, 1, 1⟩ ⟨⟨0, 0⟩, 1, some 1, 2, [0]⟩ p ≤ 2)) ∧
    doPadToPadsDrc ⟨2, 1, 1, 1, 1, 1⟩ ⟨⟨0, 0⟩, 1, some 1, 2, [0]⟩
        [⟨⟨4, 0⟩, 1, some 2, 2, [0]⟩, ⟨⟨100, 0⟩, 1, some 3, 2, [0]⟩]
        (padMaxX ⟨⟨0, 0⟩, 1, some 1, 2, [0]⟩ + 2) =
      padToPadsNaive ⟨2, 1, 1, 1, 1, 1⟩ ⟨⟨0, 0⟩, 1, some 1, 2, [0]⟩
        [⟨⟨4, 0⟩, 1, some 2, 2, [0]⟩, ⟨⟨100, 0⟩, 1, some 3, 2, [0]⟩] := by
  refine ⟨⟨by decide, by decide, by decide⟩, ?_⟩
  exact doPadToPadsDrc_eq_naive ⟨2, 1, 1, 1, 1, 1⟩ ⟨⟨0, 0⟩, 1, some 1, 2, [0]⟩
    [⟨⟨4, 0⟩, 1, some 2, 2, [0]⟩, ⟨⟨100, 0⟩, 1, some 3, 2, [0]⟩] 2
    (by decide) (by decide) (by decide)

/-- C7: cooperative cancellation after `k` reference items returns exactly
the violation list of an uncancelled run restricted to the first `k`
reference items (each still scanned against its own candidate tail), and
that list is a prefix of the full run's list: records are appended whole,
never truncated or re-ordered, and the partial report is returned. -/
theorem testPad2Pad_cancellation_spec (g : BOARD_DESIGN_SETTINGS) (worst : Int)
    (k : Nat) (pads : List D_PAD) :
    testPad2PadUpTo g worst k pads =
      testPad2PadOnRefs g worst ((refsWithTails pads).take k) ∧
    (∃ rest, testPad2Pad g worst pads = testPad2PadUpTo g worst k pads ++ rest) ∧
    testPad2Pad g worst pads = testPad2PadOnRefs g worst (refsWithTails pads) := by
  refine ⟨?_, ?_, ?_⟩
  · induction pads generalizing k with
    | nil => cases k <;> rfl
    | cons ref rest ih =>
      cases k with
      | zero => rfl
      | succ k =>
        unfold testPad2PadUpTo refsWithTails
        rw [List.take_succ_cons]
        unfold testPad2PadOnRefs
        rw [ih k]
  · induction pads generalizing k with
    | nil => exact ⟨[], by cases k <;> rfl⟩
    | cons ref rest ih =>
      cases k with
      | zero => exact ⟨testPad2Pad g worst (ref :: rest), rfl⟩
      | succ k =>
        rcases ih k with ⟨tail, htail⟩
        refine ⟨tail, ?_⟩
        unfold testPad2Pad testPad2PadUpTo
        rw [htail, List.append_assoc]
  · induction pads with
    | nil => rfl
    | cons ref rest ih =>
      unfold testPad2Pad refsWithTails testPad2PadOnRefs
      rw [ih]

/-- The claim of C8 as stated: every check category would have a
caller-settable per-category verbosity flag.  It is false: of the seven
configuration booleans of the `DRC` class (drc.h lines 149-155) only
`m_reportAllTrackErrors` limits reporting, and it covers only the track
category — the pad-to-pad category, for one, has no such flag. -/
theorem not_every_category_has_limit_flag :
    ¬ ∀ c : DRC_CATEGORY, categoryHasLimitFlag c = true := by
  intro h
  exact absurd (h DRC_CATEGORY.pad2pad) (by decide)

/-- C8 (amended): only the track category has a verbosity flag.  When
`m_reportAllTrackErrors` is cleared the track driver emits only the first 4
track violations (drc.h line 154: "Report all tracks errors (or only 4
first errors)") and the pass continues with the remaining categories
unchanged; when it is set, all track violations are emitted. -/
theorem reportAllTrackErrors_limits_only_tracks (tooClose : TRACK → TRACK → Bool)
    (cfg : DRC_CONFIG) (st : DRC_STATE) (b : BOARD)
    (hflag : cfg.reportAllTrackErrors = false) :
    (RunTests tooClose cfg st b).1 =
      testNetClasses b.settings b.netclasses ++
      (testTracksAll tooClose b.tracks).take 4 ++
      (if cfg.doPad2PadTest then
        testPad2Pad b.settings (worstClearance b.settings b.pads) b.pads else []) ∧
    (testTracks tooClose cfg.reportAllTrackErrors b.tracks).length ≤ 4 ∧
    (∀ reportAll : Bool, reportAll = true →
      testTracks tooClose reportAll b.tracks = testTracksAll tooClose b.tracks) ∧
    categoryHasLimitFlag DRC_CATEGORY.tracks = true := by
  refine ⟨?_, ?_, ?_, rfl⟩
  · unfold RunTests testTracks
    rw [hflag]
    rfl
  · unfold testTracks
    rw [hflag]
    simp
  · intro reportAll h
    unfold testTracks
    rw [h]
    rfl

/-- Witness for C8 (amended) at a concrete input: a configuration with the
track verbosity flag cleared. -/
theorem reportAllTrackErrors_limits_only_tracks_witness :
    ((⟨false, false, false, false, false, false, false⟩ : DRC_CONFIG).reportAllTrackErrors
        = false) ∧
    (testTracks (fun _ _ => true)
      (⟨false, false, false, false, false, false, false⟩ :
        DRC_CONFIG).reportAllTrackErrors []).length ≤ 4 := by
  refine ⟨by decide, ?_⟩
  exact (reportAllTrackErrors_limits_only_tracks (fun _ _ => true)
    ⟨false, false, false, false, false, false, false⟩ ⟨[], false⟩
    ⟨[], [], [], ⟨1, 1, 1, 1, 1, 1⟩, []⟩ (by decide)).2.1

/-! eeschema screen editing (src/eeschema/sch_screen.cpp).

The routines below are embedded from the source.  Helper predicates whose
bodies live outside src/ are handled as follows: `SCH_LINE::IsEndPoint` and
`SCH_LINE::IsNull` (sch_line.h) are modelled as the evident point-equality
tests; the geometric `IsPointOnSegment` (common/trigo.cpp), the
`SCH_LINE::IsParallel` predicate and `SCH_LINE::MergeOverlap` constructor
(sch_line.cpp), and the screen-reading `IsJunctionNeeded` predicate are
taken as parameters (`onSeg`, `isPar`, `mo`, `isJN`), so every theorem holds
for any implementation of them. -/

/-- The distinguished drawing layer of free-graphics lines, which
`BreakSegments` skips (sch_screen.cpp line 1384: `LAYER_NOTES`). -/
def LAYER_NOTES : Nat := 0

/-- A schematic line segment (`SCH_LINE`): endpoints, layer, and the line
style, colour and width attributes compared by the cleanup. -/
structure SCH_LINE where
  startPoint : Pt
  endPoint : Pt
  layer : Nat
  lineStyle : Int
  lineColor : Int
  lineSize : Int
  deriving DecidableEq, Repr

/-- Modelled from the spec: `SCH_LINE::IsEndPoint` (sch_line.h, not in
src/): whether the point coincides with one of the segment's endpoints. -/
def SCH_LINE.IsEndPoint (l : SCH_LINE) (p : Pt) : Bool :=
  decide (p = l.startPoint) || decide (p = l.endPoint)

/-- Modelled from the spec: `SCH_LINE::IsNull` (sch_line.h, not in src/): a
zero-length segment, start equal to end. -/
def SCH_LINE.IsNull (l : SCH_LINE) : Bool := decide (l.startPoint = l.endPoint)

/-- A schematic item, a closed variant over the item kinds the cleanup
touches: lines, junctions, no-connects, and anything else (skipped by the
type filter of sch_screen.cpp lines 1216-1219). -/
inductive SCH_ITEM where
  | line (l : SCH_LINE)
  | junction (pos : Pt)
  | noConnect (pos : Pt)
  | other (tag : Nat)
  deriving DecidableEq, Repr

/-- An undo entry recorded through `SaveCopyInUndoList`; the flag is the
`aAppend` argument grouping the entry with the previous command. -/
inductive UndoEntry where
  | UR_NEW (item : SCH_ITEM)
  | UR_CHANGED (item : SCH_ITEM)
  | UR_DELETED (item : SCH_ITEM)
  deriving DecidableEq, Repr

/-- Embedded from src/eeschema/sch_screen.cpp lines 1346-1372,
`SCH_EDIT_FRAME::BreakSegment`: breaks the designated segment (`screen[i]`)
at `aPoint`.  When the point is not on the segment (per the `onSeg`
parameter standing for `IsPointOnSegment`) or coincides with one of its
endpoints, returns `false` with screen and undo list unchanged.  Otherwise
a copy of the segment with its start moved to the point is added to the
screen (item insertion follows `SCH_SCREEN::AddToDrawList`, sch_screen.cpp
lines 206-210, the insertion primitive in this source, which prepends),
both segments are recorded in the undo list, and the original segment's end
is moved to the point. -/
def BreakSegment (onSeg : Pt → Pt → Pt → Bool) (screen : List SCH_ITEM)
    (undo : List (Bool × UndoEntry)) (i : Nat) (aPoint : Pt) (aAppend : Bool) :
    Bool × List SCH_ITEM × List (Bool × UndoEntry) :=
  match screen[i]? with
  | some (SCH_ITEM.line seg) =>
    if !onSeg seg.startPoint seg.endPoint aPoint || seg.IsEndPoint aPoint then
      (false, screen, undo)
    else
      let newSegment : SCH_LINE := { seg with startPoint := aPoint }
      (true,
        SCH_ITEM.line newSegment :: screen.set i (SCH_ITEM.line { seg with endPoint := aPoint }),
        undo ++ [(aAppend, UndoEntry.UR_NEW (SCH_ITEM.line newSegment)),
          (true, UndoEntry.UR_CHANGED (SCH_ITEM.line seg))])
  | _ => (false, screen, undo)

/-- The break of one line at a point, the core of `BreakSegment`: `none`
when the guard of sch_screen.cpp lines 1350-1352 rejects, otherwise the
changed original (end moved to the point) and the new segment (start moved
to the point). -/
def breakLineAt (onSeg : Pt → Pt → Pt → Bool) (seg : SCH_LINE) (p : Pt) :
    Option (SCH_LINE × SCH_LINE) :=
  if !onSeg seg.startPoint seg.endPoint p || seg.IsEndPoint p then none
  else some ({ seg with endPoint := p }, { seg with startPoint := p })

/-- Embedded from src/eeschema/sch_screen.cpp lines 1375-1392,
`SCH_EDIT_FRAME::BreakSegments`: breaks every line (except those on
`LAYER_NOTES`) at the point.  Returns the items in traversal order with
each broken line replaced in place, the newly created segments (prepended
to the screen front by `AddToScreen`, so never revisited by the traversal),
the undo entries in chronological order, and whether anything broke. -/
def BreakSegments (onSeg : Pt → Pt → Pt → Bool) (aPoint : Pt) (aAppend : Bool) :
    List SCH_ITEM → List SCH_ITEM × List SCH_ITEM × List (Bool × UndoEntry) × Bool
  | [] => ([], [], [], false)
  | item :: rest =>
    match item with
    | SCH_ITEM.line seg =>
      if decide (seg.layer = LAYER_NOTES) then
        let r := BreakSegments onSeg aPoint aAppend rest
        (item :: r.1, r.2.1, r.2.2.1, r.2.2.2)
      else
        match breakLineAt onSeg seg aPoint with
        | some (changed, newSegment) =>
          let r := BreakSegments onSeg aPoint true rest
          (SCH_ITEM.line changed :: r.1, SCH_ITEM.line newSegment :: r.2.1,
            (aAppend, UndoEntry.UR_NEW (SCH_ITEM.line newSegment)) ::
              (true, UndoEntry.UR_CHANGED (SCH_ITEM.line seg)) :: r.2.2.1, true)
        | none =>
          let r := BreakSegments onSeg aPoint aAppend rest
          (item :: r.1, r.2.1, r.2.2.1, r.2.2.2)
    | _ =>
      let r := BreakSegments onSeg aPoint aAppend rest
      (item :: r.1, r.2.1, r.2.2.1, r.2.2.2)

/-- The positions of the junctions of a screen, in traversal order. -/
def junctionPositions : List SCH_ITEM → List Pt
  | [] => []
  | SCH_ITEM.junction p :: rest => p :: junctionPositions rest
  | _ :: rest => junctionPositions rest

/-- Embedded from src/eeschema/sch_screen.cpp lines 1395-1412,
`SCH_EDIT_FRAME::BreakSegmentsOnJunctions`: breaks the screen's segments at
every junction position.  New segments are prepended to the screen front,
so the traversal visits exactly the original items; junctions are
processed in traversal order against the evolving screen. -/
def BreakSegmentsOnJunctions (onSeg : Pt → Pt → Pt → Bool) (aAppend : Bool)
    (screen : List SCH_ITEM) : List SCH_ITEM × List (Bool × UndoEntry) :=
  go (junctionPositions screen) aAppend screen []
where
  go : List Pt → Bool → List SCH_ITEM → List (Bool × UndoEntry) →
      List SCH_ITEM × List (Bool × UndoEntry)
    | [], _, scr, undo => (scr, undo)
    | p :: ps, app, scr, undo =>
      let r := BreakSegments onSeg p app scr
      go ps (app || r.2.2.2) (r.2.1.reverse ++ r.1) (undo ++ r.2.2.1)

/-- One event of the cleanup pass, recording a removal or a merge together
with the items involved at the moment it happened. -/
inductive CleanupEvent where
  | mergedLines (first second merged : SCH_LINE)
  | removedIdentical (first second : SCH_LINE)
  | removedZeroLength (seg : SCH_LINE)
  | removedUnneededJunction (pos : Pt)
  | removedDuplicate (kept removed : SCH_ITEM)
  deriving DecidableEq, Repr

/-- Whether two non-line items have the same kind and the same position:
the guard of the duplicate junction/no-connect removal (sch_screen.cpp
lines 1283-1285, `secondItem->GetPosition() == item->GetPosition()` after
the type filter of line 1242). -/
def sameTypeSamePos : SCH_ITEM → SCH_ITEM → Bool
  | SCH_ITEM.junction p, SCH_ITEM.junction q => decide (p = q)
  | SCH_ITEM.noConnect p, SCH_ITEM.noConnect q => decide (p = q)
  | _, _ => false

/-- The inner scan of the cleanup for a junction or no-connect reference
item: flags later unflagged items of the same kind at the same position as
deleted (sch_screen.cpp lines 1240-1244 and 1283-1285). -/
def innerScanSame (first : SCH_ITEM) :
    List (SCH_ITEM × Bool) → List (SCH_ITEM × Bool) × List CleanupEvent
  | [] => ([], [])
  | (item, del) :: rest =>
    if !del && sameTypeSamePos first item then
      let r := innerScanSame first rest
      ((item, true) :: r.1, CleanupEvent.removedDuplicate first item :: r.2)
    else
      let r := innerScanSame first rest
      ((item, del) :: r.1, r.2)

/-- The merge guard of sch_screen.cpp lines 1254-1258: the scan `continue`s
unless the second line is parallel to the first and matches its line style,
colour and width (the source tests the disjunction of the four negations;
this is its De Morgan dual, the conjunction that must hold to proceed). -/
def mergeGuard (isPar : SCH_LINE → SCH_LINE → Bool) (secondLine firstLine : SCH_LINE) :
    Bool :=
  isPar secondLine firstLine &&
    decide (secondLine.lineStyle = firstLine.lineStyle) &&
    decide (secondLine.lineColor = firstLine.lineColor) &&
    decide (secondLine.lineSize = firstLine.lineSize)

/-- The junction re-check of sch_screen.cpp lines 1268-1272: when the two
lines share an endpoint, whether a junction is still needed there. -/
def junctionNeededAtSharedEnd (isJN : Pt → Bool) (firstLine secondLine : SCH_LINE) :
    Bool :=
  if secondLine.IsEndPoint firstLine.startPoint then isJN firstLine.startPoint
  else if secondLine.IsEndPoint firstLine.endPoint then isJN firstLine.endPoint
  else false

/-- The inner scan of the cleanup for a reference line (sch_screen.cpp
lines 1240-1282): skips items of a different type and flagged items; skips
second lines failing the merge guard; removes identical lines; otherwise,
when the shared endpoint needs no junction, lets `MergeOverlap` (the
parameter `mo`) merge the pair, flags the second line and stops the scan
(the `break` of line 1280), returning the merged line.  The list of flags
is updated in place; its length never changes. -/
def innerScanLine (isJN : Pt → Bool) (isPar : SCH_LINE → SCH_LINE → Bool)
    (mo : SCH_LINE → SCH_LINE → Option SCH_LINE) (firstLine : SCH_LINE) :
    List (SCH_ITEM × Bool) →
      List (SCH_ITEM × Bool) × List CleanupEvent × Option SCH_LINE
  | [] => ([], [], none)
  | (item, del) :: rest =>
    match item with
    | SCH_ITEM.line secondLine =>
      if del then
        let r := innerScanLine isJN isPar mo firstLine rest
        ((item, del) :: r.1, r.2.1, r.2.2)
      else if !mergeGuard isPar secondLine firstLine then
        let r := innerScanLine isJN isPar mo firstLine rest
        ((item, del) :: r.1, r.2.1, r.2.2)
      else if firstLine.IsEndPoint secondLine.startPoint &&
          firstLine.IsEndPoint secondLine.endPoint then
        let r := innerScanLine isJN isPar mo firstLine rest
        ((item, true) :: r.1,
          CleanupEvent.removedIdentical firstLine secondLine :: r.2.1, r.2.2)
      else
        if !junctionNeededAtSharedEnd isJN firstLine secondLine then
          match mo secondLine firstLine with
          | some line =>
            ((item, true) :: rest,
              [CleanupEvent.mergedLines firstLine secondLine line], some line)
          | none =>
            let r := innerScanLine isJN isPar mo firstLine rest
            ((item, del) :: r.1, r.2.1, r.2.2)
        else
          let r := innerScanLine isJN isPar mo firstLine rest
          ((item, del) :: r.1, r.2.1, r.2.2)
    | _ =>
      let r := innerScanLine isJN isPar mo firstLine rest
      ((item, del) :: r.1, r.2.1, r.2.2)

theorem innerScanSame_length (first : SCH_ITEM) (l : List (SCH_ITEM × Bool)) :
    (innerScanSame first l).1.length = l.length := by
  induction l with
  | nil => rfl
  | cons x rest ih =>
    rcases x with ⟨item, del⟩
    unfold innerScanSame
    split_ifs <;> simp [ih]

theorem innerScanLine_length (isJN : Pt → Bool) (isPar : SCH_LINE → SCH_LINE → Bool)
    (mo : SCH_LINE → SCH_LINE → Option SCH_LINE) (firstLine : SCH_LINE)
    (l : List (SCH_ITEM × Bool)) :
    (innerScanLine isJN isPar mo firstLine l).1.length = l.length := by
  induction l with
  | nil => rfl
  | cons x rest ih =>
    rcases x with ⟨item, del⟩
    rcases item with ln | p | p | t
    · simp only [innerScanLine]
      repeat' split
      all_goals simp [ih]
    · simp only [innerScanLine]
      simp [ih]
    · simp only [innerScanLine]
      simp [ih]
    · simp only [innerScanLine]
      simp [ih]

/-- Embedded from src/eeschema/sch_screen.cpp lines 1214-1287, the outer
loop of `SCH_EDIT_FRAME::SchematicCleanUp`: walks the item list, skipping
items of other types and items already flagged deleted; removes unneeded
junctions (line 1226, guard `!aScreen->IsJunctionNeeded(...)`, the `isJN`
parameter) and zero-length lines; runs the inner scan over the remaining
items for the current reference item; a successful merge flags the
reference line deleted and prepends the merged line to the screen front
(where the traversal never revisits it).  Returns the flagged item list in
traversal order, the events in chronological order, and the merged lines
added at the front (latest first).  The recursion is on the number of
remaining list nodes, which the inner scans preserve. -/
def cleanupPass (isJN : Pt → Bool) (isPar : SCH_LINE → SCH_LINE → Bool)
    (mo : SCH_LINE → SCH_LINE → Option SCH_LINE) :
    List (SCH_ITEM × Bool) →
      List (SCH_ITEM × Bool) × List CleanupEvent × List SCH_ITEM
  | [] => ([], [], [])
  | (item, del) :: rest =>
    if del then
      let r := cleanupPass isJN isPar mo rest
      ((item, del) :: r.1, r.2.1, r.2.2)
    else
      match item with
      | SCH_ITEM.junction p =>
        if !isJN p then
          let r := cleanupPass isJN isPar mo rest
          ((item, true) :: r.1,
            CleanupEvent.removedUnneededJunction p :: r.2.1, r.2.2)
        else
          let s := innerScanSame item rest
          let r := cleanupPass isJN isPar mo s.1
          ((item, false) :: r.1, s.2 ++ r.2.1, r.2.2)
      | SCH_ITEM.noConnect _ =>
        let s := innerScanSame item rest
        let r := cleanupPass isJN isPar mo s.1
        ((item, false) :: r.1, s.2 ++ r.2.1, r.2.2)
      | SCH_ITEM.line seg =>
        if seg.IsNull then
          let r := cleanupPass isJN isPar mo rest
          ((item, true) :: r.1, CleanupEvent.removedZeroLength seg :: r.2.1, r.2.2)
        else
          let s := innerScanLine isJN isPar mo seg rest
          match s.2.2 with
          | some merged =>
            let r := cleanupPass isJN isPar mo s.1
            ((item, true) :: r.1, s.2.1 ++ r.2.1, r.2.2 ++ [SCH_ITEM.line merged])
          | none =>
            let r := cleanupPass isJN isPar mo s.1
            ((item, false) :: r.1, s.2.1 ++ r.2.1, r.2.2)
      | SCH_ITEM.other _ =>
        let r := cleanupPass isJN isPar mo rest
        ((item, false) :: r.1, r.2.1, r.2.2)
termination_by l => l.length
decreasing_by
  all_goals simp_wf
  all_goals first
    | omega
    | (rw [innerScanSame_length]; omega)
    | (rw [innerScanLine_length]; omega)

/-- Embedded from src/eeschema/sch_screen.cpp lines 1197-1301,
`SCH_EDIT_FRAME::SchematicCleanUp`: breaks segments on junctions
(line 1212), runs the cleanup loop over the items with fresh deleted
flags, and finally removes the flagged items from the screen (the physical
removal pass of lines 1289-1295).  Returns the resulting screen, the event
log, and whether anything was removed or merged (the source returns whether
the undo picker list is non-empty). -/
def SchematicCleanUp (onSeg : Pt → Pt → Pt → Bool) (isJN : Pt → Bool)
    (isPar : SCH_LINE → SCH_LINE → Bool) (mo : SCH_LINE → SCH_LINE → Option SCH_LINE)
    (screen : List SCH_ITEM) : List SCH_ITEM × List CleanupEvent × Bool :=
  let broken := (BreakSegmentsOnJunctions onSeg true screen).1
  let r := cleanupPass isJN isPar mo (broken.map (fun it => (it, false)))
  (r.2.2 ++ (r.1.filter (fun x => !x.2)).map Prod.fst, r.2.1, !r.2.1.isEmpty)

/-- What each cleanup event is allowed to record: merges and
identical-line removals only for pairs passing the merge guard (parallel,
same style, colour and width), unneeded-junction removals only where the
junction-needed predicate is false, zero-length removals only of null
lines, and duplicate removals only of an item of the same kind at the same
position as a surviving reference item. -/
def eventOk (isJN : Pt → Bool) (isPar : SCH_LINE → SCH_LINE → Bool)
    (mo : SCH_LINE → SCH_LINE → Option SCH_LINE) : CleanupEvent → Prop
  | .mergedLines f s m => mergeGuard isPar s f = true ∧ mo s f = some m
  | .removedIdentical f s => mergeGuard isPar s f = true ∧
      f.IsEndPoint s.startPoint = true ∧ f.IsEndPoint s.endPoint = true
  | .removedZeroLength seg => seg.IsNull = true
  | .removedUnneededJunction p => isJN p = false
  | .removedDuplicate kept removed => sameTypeSamePos kept removed = true

theorem innerScanSame_events (first : SCH_ITEM) (l : List (SCH_ITEM × Bool)) :
    ∀ e ∈ (innerScanSame first l).2,
      ∃ item, e = CleanupEvent.removedDuplicate first item ∧
        sameTypeSamePos first item = true := by
  induction l with
  | nil => intro e he; cases he
  | cons x rest ih =>
    rcases x with ⟨item, del⟩
    intro e he
    simp only [innerScanSame] at he
    split_ifs at he with hguard
    · rcases List.mem_cons.mp he with rfl | he2
      · exact ⟨item, rfl, (Bool.and_eq_true _ _ ▸ hguard).2⟩
      · exact ih e he2
    · exact ih e he

theorem innerScanLine_events (isJN : Pt → Bool) (isPar : SCH_LINE → SCH_LINE → Bool)
    (mo : SCH_LINE → SCH_LINE → Option SCH_LINE) (firstLine : SCH_LINE)
    (l : List (SCH_ITEM × Bool)) :
    ∀ e ∈ (innerScanLine isJN isPar mo firstLine l).2.1,
      eventOk isJN isPar mo e := by
  induction l with
  | nil => intro e he; cases he
  | cons x rest ih =>
    rcases x with ⟨item, del⟩
    intro e he
    rcases item with ln | p | p | t
    · simp only [innerScanLine] at he
      split_ifs at he with hdel hguard hid hneeded
      · exact ih e he
      · exact ih e he
      · rcases List.mem_cons.mp he with rfl | he2
        · have hg : mergeGuard isPar ln firstLine = true := by
            rcases Bool.not_eq_true _ ▸ hguard with h
            simpa using h
          have hid2 := Bool.and_eq_true _ _ ▸ hid
          exact ⟨hg, hid2.1, hid2.2⟩
        · exact ih e he2
      · cases hmo : mo ln firstLine with
        | some line =>
          rw [hmo] at he
          simp only [List.mem_singleton] at he
          subst he
          have hg : mergeGuard isPar ln firstLine = true := by
            rcases Bool.not_eq_true _ ▸ hguard with h
            simpa using h
          exact ⟨hg, hmo⟩
        | none =>
          rw [hmo] at he
          exact ih e he
      · exact ih e he
    · exact ih e (by simpa only [innerScanLine] using he)
    · exact ih e (by simpa only [innerScanLine] using he)
    · exact ih e (by simpa only [innerScanLine] using he)

theorem cleanupPass_events (isJN : Pt → Bool) (isPar : SCH_LINE → SCH_LINE → Bool)
    (mo : SCH_LINE → SCH_LINE → Option SCH_LINE) (l : List (SCH_ITEM × Bool)) :
    ∀ e ∈ (cleanupPass isJN isPar mo l).2.1, eventOk isJN isPar mo e := by
  induction l using cleanupPass.induct isJN isPar mo with
  | case1 =>
    intro e he
    rw [cleanupPass.eq_def] at he
    dsimp only at he
    cases he
  | case2 item rest ih =>
    intro e he
    rw [cleanupPass.eq_def] at he
    dsimp only at he
    rw [if_pos rfl] at he
    exact ih e he
  | case3 del rest hdel p hjn ih =>
    intro e he
    rw [cleanupPass.eq_def] at he
    dsimp only at he
    rw [if_neg hdel, if_pos hjn] at he
    rcases List.mem_cons.mp he with rfl | he2
    · show isJN p = false
      simpa using hjn
    · exact ih e he2
  | case4 del rest hdel p hjn s ih =>
    intro e he
    rw [cleanupPass.eq_def] at he
    dsimp only at he
    rw [if_neg hdel, if_neg hjn] at he
    rcases List.mem_append.mp he with h | h
    · rcases innerScanSame_events _ rest e h with ⟨it2, rfl, hok⟩
      exact hok
    · exact ih e h
  | case5 del rest hdel pos s ih =>
    intro e he
    rw [cleanupPass.eq_def] at he
    dsimp only at he
    rw [if_neg hdel] at he
    rcases List.mem_append.mp he with h | h
    · rcases innerScanSame_events _ rest e h with ⟨it2, rfl, hok⟩
      exact hok
    · exact ih e h
  | case6 del rest hdel seg hnull ih =>
    intro e he
    rw [cleanupPass.eq_def] at he
    dsimp only at he
    rw [if_neg hdel, if_pos hnull] at he
    rcases List.mem_cons.mp he with rfl | he2
    · exact hnull
    · exact ih e he2
  | case7 del rest hdel seg hnull s line hscan ih =>
    intro e he
    rw [cleanupPass.eq_def] at he
    dsimp only at he
    rw [if_neg hdel, if_neg hnull,
      show (innerScanLine isJN isPar mo seg rest).2.2 = some line from hscan] at he
    rcases List.mem_append.mp he with h | h
    · exact innerScanLine_events isJN isPar mo seg rest e h
    · exact ih e h
  | case8 del rest hdel seg hnull s hscan ih =>
    intro e he
    rw [cleanupPass.eq_def] at he
    dsimp only at he
    rw [if_neg hdel, if_neg hnull,
      show (innerScanLine isJN isPar mo seg rest).2.2 = none from hscan] at he
    rcases List.mem_append.mp he with h | h
    · exact innerScanLine_events isJN isPar mo seg rest e h
    · exact ih e h
  | case9 del rest hdel tag ih =>
    intro e he
    rw [cleanupPass.eq_def] at he
    dsimp only at he
    rw [if_neg hdel] at he
    exact ih e he

/-- C9: `SCH_EDIT_FRAME::BreakSegment` returns `false` and leaves the
screen, the segment and the undo list completely unchanged whenever the
point does not lie on the segment (per the `IsPointOnSegment` predicate,
the parameter `onSeg`) or coincides with one of the segment's endpoints;
otherwise it returns `true`, the original segment now ends at the point,
and a newly created segment from the point to the original end point (a
copy of the original with its start moved) has been added to the screen,
with both segments recorded in the undo list.  Hypothesis: index `i`
designates a line segment of the screen. -/
theorem BreakSegment_spec (onSeg : Pt → Pt → Pt → Bool) (screen : List SCH_ITEM)
    (undo : List (Bool × UndoEntry)) (i : Nat) (aPoint : Pt) (aAppend : Bool)
    (seg : SCH_LINE) (hseg : screen[i]? = some (SCH_ITEM.line seg)) :
    ((onSeg seg.startPoint seg.endPoint aPoint = false ∨ seg.IsEndPoint aPoint = true) →
      BreakSegment onSeg screen undo i aPoint aAppend = (false, screen, undo)) ∧
    (onSeg seg.startPoint seg.endPoint aPoint = true → seg.IsEndPoint aPoint = false →
      BreakSegment onSeg screen undo i aPoint aAppend =
        (true,
          SCH_ITEM.line { seg with startPoint := aPoint } ::
            screen.set i (SCH_ITEM.line { seg with endPoint := aPoint }),
          undo ++
            [(aAppend, UndoEntry.UR_NEW (SCH_ITEM.line { seg with startPoint := aPoint })),
             (true, UndoEntry.UR_CHANGED (SCH_ITEM.line seg))])) := by
  constructor
  · intro h
    unfold BreakSegment
    rw [hseg]
    dsimp only
    have hcond : (!onSeg seg.startPoint seg.endPoint aPoint || seg.IsEndPoint aPoint) = true := by
      rcases h with h | h <;> simp [h]
    rw [if_pos hcond]
  · intro h1 h2
    unfold BreakSegment
    rw [hseg]
    dsimp only
    have hcond : (!onSeg seg.startPoint seg.endPoint aPoint || seg.IsEndPoint aPoint) = false := by
      rw [h1, h2]
      rfl
    rw [if_neg (by simp [hcond])]

/-- Witness for C9 at a concrete input: breaking the segment (0,0)-(10,0)
at (5,0), with a point-on-segment predicate that accepts the point. -/
theorem BreakSegment_spec_witness :
    ([SCH_ITEM.line ⟨⟨0, 0⟩, ⟨10, 0⟩, 1, 0, 0, 6⟩][0]? =
        some (SCH_ITEM.line ⟨⟨0, 0⟩, ⟨10, 0⟩, 1, 0, 0, 6⟩)) ∧
    BreakSegment (fun _ _ _ => true) [SCH_ITEM.line ⟨⟨0, 0⟩, ⟨10, 0⟩, 1, 0, 0, 6⟩] [] 0
        ⟨5, 0⟩ false =
      (true,
        SCH_ITEM.line { (⟨⟨0, 0⟩, ⟨10, 0⟩, 1, 0, 0, 6⟩ : SCH_LINE) with startPoint := ⟨5, 0⟩ } ::
          [SCH_ITEM.line ⟨⟨0, 0⟩, ⟨10, 0⟩, 1, 0, 0, 6⟩].set 0
            (SCH_ITEM.line { (⟨⟨0, 0⟩, ⟨10, 0⟩, 1, 0, 0, 6⟩ : SCH_LINE) with endPoint := ⟨5, 0⟩ }),
        [] ++
          [(false, UndoEntry.UR_NEW (SCH_ITEM.line
              { (⟨⟨0, 0⟩, ⟨10, 0⟩, 1, 0, 0, 6⟩ : SCH_LINE) with startPoint := ⟨5, 0⟩ })),
           (true, UndoEntry.UR_CHANGED (SCH_ITEM.line ⟨⟨0, 0⟩, ⟨10, 0⟩, 1, 0, 0, 6⟩))]) := by
  refine ⟨by decide, ?_⟩
  exact (BreakSegment_spec (fun _ _ _ => true) [SCH_ITEM.line ⟨⟨0, 0⟩, ⟨10, 0⟩, 1, 0, 0, 6⟩]
    [] 0 ⟨5, 0⟩ false ⟨⟨0, 0⟩, ⟨10, 0⟩, 1, 0, 0, 6⟩ (by decide)).2 rfl (by decide)

/-- C10: the schematic cleanup pass never merges two line segments (and
never removes one of a pair as identical) unless the pair passes the merge
guard — parallel, with identical line style, colour and width — so
segments differing in any of these attributes survive unmerged; it removes
a junction through the unneeded-junction check only at positions where the
junction-needed predicate returns false; zero-length removals concern only
null segments; and a duplicate removal only removes an item of the same
kind at the same position as a reference item that survives the scan.
Hypothesis: the event belongs to the run's event log.  The theorem holds
for every implementation of the point-on-segment, parallelism,
merge-overlap and junction-needed predicates. -/
theorem SchematicCleanUp_event_guards (onSeg : Pt → Pt → Pt → Bool) (isJN : Pt → Bool)
    (isPar : SCH_LINE → SCH_LINE → Bool) (mo : SCH_LINE → SCH_LINE → Option SCH_LINE)
    (screen : List SCH_ITEM) (e : CleanupEvent)
    (he : e ∈ (SchematicCleanUp onSeg isJN isPar mo screen).2.1) :
    eventOk isJN isPar mo e := by
  unfold SchematicCleanUp at he
  exact cleanupPass_events isJN isPar mo _ e he

/-- Witness for C10 at a concrete input: a screen holding two identical
parallel wire segments and an unneeded junction; the duplicate-removal
event it produces satisfies the guard. -/
theorem SchematicCleanUp_event_guards_witness :
    ((CleanupEvent.removedUnneededJunction ⟨7, 7⟩ ∈
        (SchematicCleanUp (fun _ _ _ => false) (fun _ => false) (fun _ _ => true)
          (fun _ _ => none) [SCH_ITEM.junction ⟨7, 7⟩]).2.1) ∧
      eventOk (fun _ => false) (fun _ _ => true) (fun _ _ => none)
        (CleanupEvent.removedUnneededJunction ⟨7, 7⟩)) := by
  have hmem : CleanupEvent.removedUnneededJunction ⟨7, 7⟩ ∈
      (SchematicCleanUp (fun _ _ _ => false) (fun _ => false) (fun _ _ => true)
        (fun _ _ => none) [SCH_ITEM.junction (⟨7, 7⟩ : Pt)]).2.1 := by
    simp [SchematicCleanUp, BreakSegmentsOnJunctions, BreakSegmentsOnJunctions.go,
      junctionPositions, BreakSegments, cleanupPass]
  refine ⟨hmem, ?_⟩
  exact SchematicCleanUp_event_guards (fun _ _ _ => false) (fun _ => false)
    (fun _ _ => true) (fun _ _ => none) [SCH_ITEM.junction ⟨7, 7⟩]
    (CleanupEvent.removedUnneededJunction ⟨7, 7⟩) hmem

end Kicad
